import Mathlib

/-!
Verification development for the client-side search engine
(js/util/searchEngine.js) and the virtualized prompt-list renderer
(js/ui/promptListRender.js) of the Prompt-Factory repository.

JavaScript strings are modelled as lists of characters (UTF-16 code units
are identified with Lean characters; the model of toLowerCase is ASCII).
Machine numbers appearing here are exact (scores are naturals, date values
integers); the only fractional constant, SCORE_THRESHOLD = 0.1, is modelled
as the rational 1/10.
-/

namespace PromptFactory

/-- JavaScript string, modelled as a list of characters. -/
abbrev JSStr := List Char

-- ASCII whitespace characters recognised by the JS regexes /\s/ and trim.
def isWsChar (c : Char) : Bool :=
  c = ' ' || c = '\t' || c = '\n' || c = '\r' || c = Char.ofNat 11 || c = Char.ofNat 12

-- JS \w : letters, digits and underscore.
def isWordChar (c : Char) : Bool :=
  c.isAlphanum || c = '_'

/-- Model of String.prototype.trim (both ends, whitespace). -/
def jsTrim (s : JSStr) : JSStr :=
  ((s.dropWhile isWsChar).reverse.dropWhile isWsChar).reverse

/-- Model of text.toLowerCase() (ASCII letters). -/
def jsToLower (s : JSStr) : JSStr := s.map Char.toLower

/-- Model of text.includes(sub): substring test. -/
def jsIncludes (text sub : JSStr) : Bool :=
  text.tails.any (fun t => sub.isPrefixOf t)

/-- searchEngine.js, tokenizeAndNormalize (lines 24-31):
lower-case, strip non-word non-space characters, split on whitespace runs,
drop empty tokens. -/
def tokenizeAndNormalize (text : JSStr) : List JSStr :=
  (((jsToLower text).filter (fun c => isWordChar c || isWsChar c)).splitOnP
      isWsChar).filter (fun w => !w.isEmpty)

/-- Model of Array.prototype.join(' '). -/
def joinSpace : List JSStr → JSStr
  | [] => []
  | [t] => t
  | t :: ts => t ++ ' ' :: joinSpace ts

-- --- Configuration constants (searchEngine.js lines 9-11) ---

def SCORE_THRESHOLD : ℚ := 1 / 10
def FUZZY_MATCH_THRESHOLD : ℕ := 2
def CACHE_MAX_SIZE : ℕ := 100

/-- searchEngine.js, levenshteinDistance (lines 40-67): the DP table.
levTable s1 s2 i j is track[j][i], the distance between the length-i prefix
of s1 and the length-j prefix of s2.  The indicator at cell (i+1, j+1)
compares s1[i] with s2[j]. -/
def levTable (s1 s2 : JSStr) : ℕ → ℕ → ℕ
  | i, 0 => i
  | 0, j + 1 => j + 1
  | i + 1, j + 1 =>
    min (levTable s1 s2 i (j + 1) + 1)
      (min (levTable s1 s2 (i + 1) j + 1)
        (levTable s1 s2 i j + if s1.get? i = s2.get? j then 0 else 1))

/-- searchEngine.js, levenshteinDistance (lines 40-67) with its early
returns for equal and empty inputs. -/
def levenshteinDistance (s1 s2 : JSStr) : ℕ :=
  if s1 = s2 then 0
  else if s1 = [] then (if s2 = [] then 0 else s2.length)
  else if s2 = [] then s1.length
  else levTable s1 s2 s1.length s2.length

/-- searchEngine.js, termMatches (lines 77-89). -/
def termMatches (term : JSStr) (textTokens : List JSStr) (fuzzy : Bool)
    (fuzzyThreshold : ℕ) : Bool :=
  if textTokens.contains term then true
  else if fuzzy then
    textTokens.any (fun token => levenshteinDistance term token ≤ fuzzyThreshold)
  else false

-- --- Document model ---

/-- A prompt object as consumed by searchEngine.js.  A missing / null /
undefined text field is identified with the empty string (both are falsy
and tokenize to nothing); a missing or non-array tags property is `none`.
The _searchScore component models the temporary property of the same name
that search() attaches and strips. -/
structure Prompt where
  title : JSStr := []
  description : JSStr := []
  content : JSStr := []
  tags : Option (List JSStr) := none
  category : JSStr := []
  updated_at : JSStr := []
  created_at : JSStr := []
  _searchScore : Option ℕ := none
deriving Repr, DecidableEq

/-- Tokenisations of the four searchable fields of a prompt
(searchEngine.js lines 110-115). -/
def promptTitleTokens (p : Prompt) : List JSStr := tokenizeAndNormalize p.title
def promptDescriptionTokens (p : Prompt) : List JSStr := tokenizeAndNormalize p.description
def promptContentTokens (p : Prompt) : List JSStr := tokenizeAndNormalize p.content
def promptTagsTokens (p : Prompt) : List JSStr :=
  match p.tags with
  | some ts => tokenizeAndNormalize (joinSpace ts)
  | none => []

/-- One iteration of the queryTokens.forEach loop of calculateScore
(searchEngine.js lines 117-139), acting on the accumulator
(score, matchedQueryTerms). -/
def calcStep (p : Prompt) (fuzzy : Bool) (acc : ℕ × Finset JSStr)
    (queryToken : JSStr) : ℕ × Finset JSStr :=
  let s0 := acc.1
  let c1 := !p.title.isEmpty &&
    termMatches queryToken (promptTitleTokens p) fuzzy FUZZY_MATCH_THRESHOLD
  let s1 := if c1 then s0 + 10 else s0
  let c2 := !p.description.isEmpty &&
    termMatches queryToken (promptDescriptionTokens p) fuzzy FUZZY_MATCH_THRESHOLD
  let s2 := if c2 then s1 + 5 else s1
  let c3 := !p.content.isEmpty &&
    termMatches queryToken (promptContentTokens p) fuzzy FUZZY_MATCH_THRESHOLD
  let s3 := if c3 then s2 + 3 else s2
  let c4 := (match p.tags with
      | some ts => !ts.isEmpty
      | none => false) &&
    termMatches queryToken (promptTagsTokens p) fuzzy FUZZY_MATCH_THRESHOLD
  let s4 := if c4 then s3 + 7 else s3
  let found := c1 || c2 || c3 || c4
  (s4, if found then insert queryToken acc.2 else acc.2)

/-- The mutually exclusive phrase bonus of calculateScore
(searchEngine.js lines 144-151). -/
def phraseBonus (p : Prompt) (queryTokens : List JSStr) : ℕ :=
  let fullQueryString := joinSpace queryTokens
  if fullQueryString.length > 0 then
    if !p.title.isEmpty && jsIncludes (jsToLower p.title) fullQueryString then 20
    else if !p.description.isEmpty && jsIncludes (jsToLower p.description) fullQueryString then 15
    else if !p.content.isEmpty && jsIncludes (jsToLower p.content) fullQueryString then 10
    else 0
  else 0

/-- searchEngine.js, calculateScore (lines 98-154). -/
def calculateScore (p : Prompt) (queryTokens : List JSStr) (fuzzy : Bool) : ℕ :=
  let fin := queryTokens.foldl (calcStep p fuzzy) (0, (∅ : Finset JSStr))
  fin.1 + fin.2.card * 5 + phraseBonus p queryTokens

-- --- Filters and the filter engine ---

/-- The dateRange filter member. -/
structure DateRange where
  startDate : Option JSStr := none
  endDate : Option JSStr := none
deriving Repr, DecidableEq

/-- The options.filters object.  `cyclic` models the possibility that the
user-supplied filter object carries a circular reference, in which case
JSON.stringify (and hence JSON.parse(JSON.stringify(.))) throws a
TypeError; all fields searchEngine.js actually reads are explicit. -/
structure Filters where
  category : Option JSStr := none
  tags : Option (List JSStr) := none
  dateRange : Option DateRange := none
  cyclic : Bool := false
deriving Repr, DecidableEq

/-- Model of Object.keys(filters).length > 0 (searchEngine.js line 240). -/
def filtersHasKeys (f : Filters) : Bool :=
  f.category.isSome || f.tags.isSome || f.dateRange.isSome || f.cyclic

section WithDates

-- dv models s => new Date(s).getTime(): `none` stands for NaN (an
-- unparseable date), `some t` for the numeric time value.
-- endOfDay models d => d.setHours(23,59,59,999) on a parsed instant
-- (timezone dependent, hence abstract).
variable (dv : JSStr → Option ℤ) (endOfDay : ℤ → ℤ)

/-- searchEngine.js, applyFilters (lines 165-207). -/
def applyFilters (prompts : List Prompt) (filters : Filters) : List Prompt :=
  -- Category filter (lines 169-171); a present empty string is falsy.
  let fp := match filters.category with
    | some c => if !c.isEmpty then prompts.filter (fun p => p.category = c) else prompts
    | none => prompts
  -- Tags filter, AND logic (lines 174-179).
  let fp := match filters.tags with
    | some ts =>
      if !ts.isEmpty then
        fp.filter (fun p =>
          match p.tags with
          | some pts => ts.all (fun t => pts.contains t)
          | none => false)
      else fp
    | none => fp
  -- Date range filter (lines 182-205).
  match filters.dateRange with
  | some dr =>
    let start : Option ℤ := match dr.startDate with
      | some s => if !s.isEmpty then dv s else none
      | none => none
    let stop : Option ℤ := match dr.endDate with
      | some s => if !s.isEmpty then dv s else none
      | none => none
    if start.isSome || stop.isSome then
      fp.filter (fun p =>
        let promptDateStr := if !p.updated_at.isEmpty then p.updated_at else p.created_at
        if promptDateStr.isEmpty then false
        else match dv promptDateStr with
          | none => false
          | some d =>
            (match start with
              | some sv => decide (¬ d < sv)
              | none => true) &&
            (match stop with
              | some ev => decide (¬ d > endOfDay ev)
              | none => true))
    else fp
  | none => fp

-- --- Search orchestrator ---

/-- The value returned by search (searchEngine.js lines 261-264). -/
structure SearchResult where
  results : List Prompt
  highlightTerms : List JSStr
deriving Repr, DecidableEq

/-- The options argument of search with its defaults. -/
structure Options where
  filters : Filters := {}
  fuzzy : Bool := false
  useCache : Bool := true
deriving Repr, DecidableEq

/-- The module-level searchCache: a JS Map in insertion order. -/
abbrev Cache := List (JSStr × SearchResult)

/-- Model of searchCache.get / searchCache.has. -/
def cacheLookup (c : Cache) (k : JSStr) : Option SearchResult :=
  (c.find? (fun e => decide (e.1 = k))).map (fun e => e.2)

/-- The cache update of search (searchEngine.js lines 267-274): when at
capacity delete the oldest (first-inserted) key, then append the new
entry.  The key being inserted is always absent (this runs on a miss),
so Map.set appends in insertion order. -/
def cacheInsert (c : Cache) (k : JSStr) (v : SearchResult) : Cache :=
  (if CACHE_MAX_SIZE ≤ c.length then c.drop 1 else c) ++ [(k, v)]

/-- The only JS exception relevant to the engine: the TypeError thrown by
JSON.stringify on a circular structure. -/
inductive JsErr where
  | typeError
deriving Repr, DecidableEq

/-- The JSON text JSON.stringify produces for a non-circular filters
object (undefined-valued members are omitted, as JSON.stringify does). -/
def filtersJson (f : Filters) : JSStr :=
  let member := fun (name : String) (v : JSStr) =>
    ("\x22" ++ name ++ "\x22:").toList ++ v
  let quoted := fun (s : JSStr) => '\x22' :: s ++ ['\x22']
  let fields : List (Option JSStr) :=
    [ f.category.map (fun c => member "category" (quoted c)),
      f.tags.map (fun ts =>
        member "tags" ('[' :: joinSpace (ts.map quoted) ++ [']'])),
      f.dateRange.map (fun _ => member "dateRange" "\x7b...\x7d".toList) ]
  '\x7b' :: joinSpace (fields.filterMap id) ++ ['\x7d']

/-- Model of JSON.stringify applied to the filters object: throws on a
circular structure, otherwise produces the JSON text. -/
def stringifyFilters (f : Filters) : Except JsErr JSStr :=
  if f.cyclic then .error .typeError else .ok (filtersJson f)

/-- The cache key template string (searchEngine.js line 229). -/
def mkCacheKey (normalizedQuery serializedFilters : JSStr) (fuzzy : Bool) : JSStr :=
  normalizedQuery ++ '|' :: serializedFilters ++ "|fuzzy:".toList ++
    (if fuzzy then "true".toList else "false".toList)

/-- searchEngine.js, logSearchQuery (lines 317-325).  Its observable
behaviour toward the caller is the exception JSON.parse(JSON.stringify(
filters)) throws on a circular filters object; console output is not
modelled. -/
def logSearchQueryE (filters : Filters) : Except JsErr Unit :=
  if filters.cyclic then .error .typeError else .ok ()

/-- Comparator order of the score sort (searchEngine.js line 252):
b._searchScore - a._searchScore, i.e. descending score; reading the
attached property (always present on this path). -/
def scoreLe (a b : Prompt) : Bool :=
  b._searchScore.getD 0 ≤ a._searchScore.getD 0

/-- The date used by the empty-query sort and the date filter:
updated_at falling back to created_at. -/
def promptDate (dv : JSStr → Option ℤ) (p : Prompt) : Option ℤ :=
  dv (if !p.updated_at.isEmpty then p.updated_at else p.created_at)

/-- Comparator order of the empty-query sort (searchEngine.js lines
256-258): new Date(b...) - new Date(a...), descending by date.  When either
date is NaN the comparator value is NaN, which Array.prototype.sort
treats as 0 (elements compare as equal). -/
def dateLe (a b : Prompt) : Bool :=
  match promptDate dv b, promptDate dv a with
  | some vb, some va => vb ≤ va
  | _, _ => true

/-- The result-construction pipeline of search (searchEngine.js lines
237-264): copy, filter, score/sort or date-sort, strip the temporary
_searchScore annotation, attach highlight terms. -/
def computeResults (allPrompts : List Prompt) (filters : Filters)
    (queryTokens : List JSStr) (fuzzy : Bool) : SearchResult :=
  let processedPrompts := allPrompts
  let processedPrompts :=
    if filtersHasKeys filters then applyFilters dv endOfDay processedPrompts filters
    else processedPrompts
  let processedPrompts :=
    if !queryTokens.isEmpty then
      (((processedPrompts.map (fun p =>
            { p with _searchScore := some (calculateScore p queryTokens fuzzy) })).filter
          (fun p => decide (SCORE_THRESHOLD ≤ (p._searchScore.getD 0 : ℚ)))).mergeSort
        scoreLe)
    else processedPrompts.mergeSort (dateLe dv)
  { results := processedPrompts.map (fun p => { p with _searchScore := none }),
    highlightTerms := queryTokens }

/-- searchEngine.js, search (lines 224-279), with the module-level cache
passed explicitly and JS exceptions surfaced in Except. -/
def search (c : Cache) (allPrompts : List Prompt) (searchQuery : JSStr)
    (options : Options) : Except JsErr (SearchResult × Cache) := do
  let normalizedQuery := jsTrim searchQuery
  let queryTokens := tokenizeAndNormalize normalizedQuery
  let cacheKey : Option JSStr ←
    if options.useCache then do
      let fs ← stringifyFilters options.filters
      pure (some (mkCacheKey normalizedQuery fs options.fuzzy))
    else pure none
  match cacheKey with
  | some k =>
    match cacheLookup c k with
    | some cachedResult => do
      logSearchQueryE options.filters
      pure (cachedResult, c)
    | none => do
      let finalResults := computeResults dv endOfDay allPrompts options.filters
        queryTokens options.fuzzy
      let c := cacheInsert c k finalResults
      logSearchQueryE options.filters
      pure (finalResults, c)
  | none => do
    let finalResults := computeResults dv endOfDay allPrompts options.filters
      queryTokens options.fuzzy
    logSearchQueryE options.filters
    pure (finalResults, c)

end WithDates

-- --- Virtualized list renderer (promptListRender.js) ---

namespace VirtualList

/-- A rendered prompt block: its data-virtual-idx attribute and its
style.top offset in pixels (promptListRender.js lines 167-181).  The
horizontal placement is likewise a function of the index alone and is not
tracked separately. -/
structure Block where
  idx : ℕ
  top : ℕ
deriving Repr, DecidableEq

/-- The vertical offset assigned to index i (promptListRender.js lines
169 and 174-181): list mode positions at i*ITEM_HEIGHT, grid mode at
row*ITEM_HEIGHT with row = i / colCount. -/
def posTop (itemHeight : ℕ) (grid : Bool) (colCount : ℕ) (i : ℕ) : ℕ :=
  if grid then (i / colCount) * itemHeight else i * itemHeight

/-- promptListRender.js, renderVisible (lines 133-190), one render pass
acting on the collection of currently rendered blocks (spacer elements
are not part of the state; the early return when the visible range is
unchanged leaves the state untouched and is therefore not modelled).
startIdx = max(0, floor(scrollTop/ITEM_HEIGHT) - BUFFER); endIdx =
min(total, ceil((scrollTop+containerHeight)/ITEM_HEIGHT) + BUFFER);
blocks outside [startIdx, endIdx) are removed, and a block is created for
every index in that range not already rendered. -/
def renderVisible (itemHeight buffer containerHeight total scrollTop : ℕ)
    (grid : Bool) (colCount : ℕ) (st : List Block) : List Block :=
  let startIdx := scrollTop / itemHeight - buffer
  let endIdx := min total ((scrollTop + containerHeight + itemHeight - 1) / itemHeight + buffer)
  let kept := st.filter (fun b => startIdx ≤ b.idx && b.idx < endIdx)
  let fresh := ((List.range' startIdx (endIdx - startIdx)).filter
      (fun i => kept.all (fun b => b.idx ≠ i))).map
    (fun i => Block.mk i (posTop itemHeight grid colCount i))
  kept ++ fresh

end VirtualList

-- --- Heap-level model of the result pipeline (frame property) ---

namespace HeapModel

/-- The JS heap restricted to prompt objects: a list of objects, an
address being an index; allocation appends. -/
abbrev Heap := List Prompt

def heapGet (h : Heap) (a : ℕ) : Prompt := h.getD a {}

/-- Model of array.map(p => (\x7b ...p, f p \x7d)): each element is read
from the heap and a fresh object holding the transformed record is
allocated; the input objects are never written. -/
def mapAlloc (f : Prompt → Prompt) : Heap → List ℕ → Heap × List ℕ
  | h, [] => (h, [])
  | h, a :: as =>
    let p := heapGet h a
    let h1 := h ++ [f p]
    let a1 := h.length
    let r := mapAlloc f h1 as
    (r.1, a1 :: r.2)

/-- searchEngine.js, applyFilters (lines 165-207) at address level: the
same three sequential filters, each predicate reading the prompt object
from the heap; the heap is never written. -/
def applyFiltersA (dv : JSStr → Option ℤ) (endOfDay : ℤ → ℤ) (h : Heap)
    (addrs : List ℕ) (filters : Filters) : List ℕ :=
  let fp := match filters.category with
    | some c =>
      if !c.isEmpty then addrs.filter (fun a => (heapGet h a).category = c) else addrs
    | none => addrs
  let fp := match filters.tags with
    | some ts =>
      if !ts.isEmpty then
        fp.filter (fun a =>
          match (heapGet h a).tags with
          | some pts => ts.all (fun t => pts.contains t)
          | none => false)
      else fp
    | none => fp
  match filters.dateRange with
  | some dr =>
    let start : Option ℤ := match dr.startDate with
      | some s => if !s.isEmpty then dv s else none
      | none => none
    let stop : Option ℤ := match dr.endDate with
      | some s => if !s.isEmpty then dv s else none
      | none => none
    if start.isSome || stop.isSome then
      fp.filter (fun a =>
        let p := heapGet h a
        let promptDateStr := if !p.updated_at.isEmpty then p.updated_at else p.created_at
        if promptDateStr.isEmpty then false
        else match dv promptDateStr with
          | none => false
          | some d =>
            (match start with
              | some sv => decide (¬ d < sv)
              | none => true) &&
            (match stop with
              | some ev => decide (¬ d > endOfDay ev)
              | none => true))
    else fp
  | none => fp

/-- The score-annotating map of search (line 247-250): each object is
spread into a fresh object carrying _searchScore. -/
def scoreAnnotate (queryTokens : List JSStr) (fuzzy : Bool) (h : Heap)
    (as : List ℕ) : Heap × List ℕ :=
  mapAlloc (fun p =>
    { p with _searchScore := some (calculateScore p queryTokens fuzzy) }) h as

/-- The final map of search (line 262): each object is spread into a
fresh object without _searchScore. -/
def stripAnnotate (h : Heap) (as : List ℕ) : Heap × List ℕ :=
  mapAlloc (fun p => { p with _searchScore := none }) h as

/-- searchEngine.js, search, lines 237-263, at heap level: the spread
copy of the input array, filtering, score annotation via object spread,
threshold filter, sort, and the final spread that strips _searchScore.
Returns the final heap and the addresses of the result objects. -/
def searchCore (dv : JSStr → Option ℤ) (endOfDay : ℤ → ℤ) (h : Heap)
    (allPrompts : List ℕ) (filters : Filters) (queryTokens : List JSStr)
    (fuzzy : Bool) : Heap × List ℕ :=
  let processed := allPrompts
  let processed :=
    if filtersHasKeys filters then applyFiltersA dv endOfDay h processed filters
    else processed
  if !queryTokens.isEmpty then
    let scored := scoreAnnotate queryTokens fuzzy h processed
    let kept := scored.2.filter
      (fun a => decide (SCORE_THRESHOLD ≤ ((heapGet scored.1 a)._searchScore.getD 0 : ℚ)))
    let sorted := kept.mergeSort
      (fun a b => scoreLe (heapGet scored.1 a) (heapGet scored.1 b))
    stripAnnotate scored.1 sorted
  else
    let sorted := processed.mergeSort (fun a b => dateLe dv (heapGet h a) (heapGet h b))
    stripAnnotate h sorted

end HeapModel

-- --- Basic lemmas on the fuzzy matcher ---

lemma levTable_zero_left (s1 s2 : JSStr) (j : ℕ) : levTable s1 s2 0 j = j := by
  cases j <;> simp [levTable]

lemma levTable_zero_right (s1 s2 : JSStr) (i : ℕ) : levTable s1 s2 i 0 = i := by
  simp [levTable]

lemma levTable_succ_succ (s1 s2 : JSStr) (i j : ℕ) :
    levTable s1 s2 (i + 1) (j + 1) =
      min (levTable s1 s2 i (j + 1) + 1)
        (min (levTable s1 s2 (i + 1) j + 1)
          (levTable s1 s2 i j + if s1.get? i = s2.get? j then 0 else 1)) := by
  rw [levTable]

lemma levTable_symm (s1 s2 : JSStr) :
    ∀ i j, levTable s1 s2 i j = levTable s2 s1 j i := by
  intro i
  induction i with
  | zero =>
    intro j
    rw [levTable_zero_left, levTable_zero_right]
  | succ i ih =>
    intro j
    induction j with
    | zero =>
      rw [levTable_zero_right, levTable_zero_left]
    | succ j ihj =>
      rw [levTable_succ_succ, levTable_succ_succ]
      have hif : (if s1.get? i = s2.get? j then 0 else 1) =
          (if s2.get? j = s1.get? i then 0 else 1) := by
        by_cases h : s1.get? i = s2.get? j
        · rw [if_pos h, if_pos h.symm]
        · rw [if_neg h, if_neg (fun hh => h hh.symm)]
      rw [ih (j + 1), ihj, ih j, hif]
      omega

/-- C9: for all strings a and b, levenshteinDistance(a, b) equals
levenshteinDistance(b, a), and for every string a,
levenshteinDistance(a, a) equals 0. -/
theorem levenshteinDistance_symm_refl :
    (∀ a b : JSStr, levenshteinDistance a b = levenshteinDistance b a) ∧
    (∀ a : JSStr, levenshteinDistance a a = 0) := by
  constructor
  · intro a b
    unfold levenshteinDistance
    by_cases hab : a = b
    · subst hab
      simp
    · have hba : ¬ b = a := fun h => hab h.symm
      rw [if_neg hab, if_neg hba]
      by_cases ha : a = []
      · subst ha
        have hb : ¬ b = [] := fun h => hab h.symm
        rw [if_pos rfl, if_neg hb, if_neg hb, if_pos rfl]
      · by_cases hb : b = []
        · subst hb
          rw [if_neg ha, if_pos rfl, if_pos rfl, if_neg ha]
        · rw [if_neg ha, if_neg hb, if_neg hb, if_neg ha, levTable_symm]
  · intro a
    simp [levenshteinDistance]

/-- C6: whatever termMatches accepts with fuzzy disabled, it accepts with
fuzzy enabled at the same threshold. -/
theorem termMatches_fuzzy_superset (term : JSStr) (textTokens : List JSStr)
    (t : ℕ) (h : termMatches term textTokens false t = true) :
    termMatches term textTokens true t = true := by
  unfold termMatches at h ⊢
  by_cases hc : textTokens.contains term = true
  · rw [if_pos hc]
  · rw [if_neg hc] at h
    simp at h

/-- Witness for C6: the exact token list containing the term. -/
theorem termMatches_fuzzy_superset_witness :
    termMatches "react".toList ["react".toList, "menu".toList] false 2 = true ∧
    termMatches "react".toList ["react".toList, "menu".toList] true 2 = true := by
  refine ⟨by decide, termMatches_fuzzy_superset _ _ _ (by decide)⟩

-- --- C7: tag filter semantics ---

/-- The tag-filter acceptance as the spec words it: the document's tag
list contains every element of the filter set; a document whose tags
member is missing or not an array never passes. -/
def specTagsPass (T : List JSStr) (p : Prompt) : Bool :=
  match p.tags with
  | some pts => decide (∀ t ∈ T, t ∈ pts)
  | none => false

/-- C7: with a non-empty tags filter (and no other filter member),
applyFilters returns exactly the documents whose tag list contains every
element of T, as a subsequence-preserving List.filter. -/
theorem applyFilters_tags_spec (dv : JSStr → Option ℤ) (endOfDay : ℤ → ℤ)
    (prompts : List Prompt) (T : List JSStr) (hT : T ≠ []) :
    applyFilters dv endOfDay prompts { tags := some T } =
      prompts.filter (specTagsPass T) := by
  unfold applyFilters
  have hTe : T.isEmpty = false := by
    cases T with
    | nil => exact absurd rfl hT
    | cons a l => rfl
  simp only [hTe, Bool.not_false, if_pos]
  apply List.filter_congr
  intro p _
  unfold specTagsPass
  cases p.tags with
  | none => rfl
  | some pts =>
    rw [Bool.eq_iff_iff]
    simp [List.all_eq_true, List.elem_iff]

/-- Witness for C7: a two-document list where only the first has both
required tags. -/
theorem applyFilters_tags_spec_witness :
    (["a".toList, "b".toList] ≠ ([] : List JSStr)) ∧
    applyFilters (fun _ => none) id
        [{ tags := some ["b".toList, "a".toList, "c".toList] }, { tags := none },
         { tags := some ["a".toList] }]
        { tags := some ["a".toList, "b".toList] } =
      List.filter (specTagsPass ["a".toList, "b".toList])
        [{ tags := some ["b".toList, "a".toList, "c".toList] }, { tags := none },
         { tags := some ["a".toList] }] :=
  ⟨by decide, applyFilters_tags_spec (fun _ => none) id _ _ (by decide)⟩

-- --- C1: the scorer computes the spec's formula ---

lemma termMatches_nil (term : JSStr) (fuzzy : Bool) (th : ℕ) :
    termMatches term [] fuzzy th = false := by
  cases fuzzy <;> rfl

lemma tokenizeAndNormalize_nil : tokenizeAndNormalize [] = [] := rfl

/-- Spec 4.3 step 2: the weight contribution of one query token, the sum
of the weights of every field whose token set it matches. -/
def specTokenWeight (p : Prompt) (fuzzy : Bool) (qt : JSStr) : ℕ :=
  (if termMatches qt (promptTitleTokens p) fuzzy FUZZY_MATCH_THRESHOLD then 10 else 0) +
  (if termMatches qt (promptDescriptionTokens p) fuzzy FUZZY_MATCH_THRESHOLD then 5 else 0) +
  (if termMatches qt (promptContentTokens p) fuzzy FUZZY_MATCH_THRESHOLD then 3 else 0) +
  (if termMatches qt (promptTagsTokens p) fuzzy FUZZY_MATCH_THRESHOLD then 7 else 0)

/-- Spec 4.3 step 3: whether a query token matched at least one field. -/
def specMatchesAnyField (p : Prompt) (fuzzy : Bool) (qt : JSStr) : Bool :=
  termMatches qt (promptTitleTokens p) fuzzy FUZZY_MATCH_THRESHOLD ||
  termMatches qt (promptDescriptionTokens p) fuzzy FUZZY_MATCH_THRESHOLD ||
  termMatches qt (promptContentTokens p) fuzzy FUZZY_MATCH_THRESHOLD ||
  termMatches qt (promptTagsTokens p) fuzzy FUZZY_MATCH_THRESHOLD

/-- Spec 4.3 step 4: the mutually exclusive phrase bonus, checked in
priority order title then description then content, on the space-joined
query as a case-insensitive substring. -/
def specPhraseBonus (p : Prompt) (qts : List JSStr) : ℕ :=
  let fullQuery := joinSpace qts
  if jsIncludes (jsToLower p.title) fullQuery then 20
  else if jsIncludes (jsToLower p.description) fullQuery then 15
  else if jsIncludes (jsToLower p.content) fullQuery then 10
  else 0

/-- Spec 4.3: per-token field weights, plus 5 per distinct matched query
token, plus the phrase bonus. -/
def specScore (p : Prompt) (qts : List JSStr) (fuzzy : Bool) : ℕ :=
  (qts.map (specTokenWeight p fuzzy)).sum +
    5 * ((qts.filter (specMatchesAnyField p fuzzy)).dedup).length +
    specPhraseBonus p qts

-- The field truthiness guards in calculateScore never change the
-- outcome: a falsy field has an empty token set, on which termMatches
-- always fails.

lemma title_guard (p : Prompt) (qt : JSStr) (fuzzy : Bool) :
    (!p.title.isEmpty &&
        termMatches qt (promptTitleTokens p) fuzzy FUZZY_MATCH_THRESHOLD) =
      termMatches qt (promptTitleTokens p) fuzzy FUZZY_MATCH_THRESHOLD := by
  cases ht : p.title.isEmpty
  · simp
  · have h0 : p.title = [] := List.isEmpty_iff.mp ht
    simp [promptTitleTokens, h0, tokenizeAndNormalize_nil, termMatches_nil]

lemma description_guard (p : Prompt) (qt : JSStr) (fuzzy : Bool) :
    (!p.description.isEmpty &&
        termMatches qt (promptDescriptionTokens p) fuzzy FUZZY_MATCH_THRESHOLD) =
      termMatches qt (promptDescriptionTokens p) fuzzy FUZZY_MATCH_THRESHOLD := by
  cases ht : p.description.isEmpty
  · simp
  · have h0 : p.description = [] := List.isEmpty_iff.mp ht
    simp [promptDescriptionTokens, h0, tokenizeAndNormalize_nil, termMatches_nil]

lemma content_guard (p : Prompt) (qt : JSStr) (fuzzy : Bool) :
    (!p.content.isEmpty &&
        termMatches qt (promptContentTokens p) fuzzy FUZZY_MATCH_THRESHOLD) =
      termMatches qt (promptContentTokens p) fuzzy FUZZY_MATCH_THRESHOLD := by
  cases ht : p.content.isEmpty
  · simp
  · have h0 : p.content = [] := List.isEmpty_iff.mp ht
    simp [promptContentTokens, h0, tokenizeAndNormalize_nil, termMatches_nil]

lemma tags_guard (p : Prompt) (qt : JSStr) (fuzzy : Bool) :
    ((match p.tags with
        | some ts => !ts.isEmpty
        | none => false) &&
        termMatches qt (promptTagsTokens p) fuzzy FUZZY_MATCH_THRESHOLD) =
      termMatches qt (promptTagsTokens p) fuzzy FUZZY_MATCH_THRESHOLD := by
  cases htg : p.tags with
  | none => simp [promptTagsTokens, htg, termMatches_nil]
  | some ts =>
    cases ts with
    | nil =>
      simp [promptTagsTokens, htg, joinSpace, tokenizeAndNormalize_nil, termMatches_nil]
    | cons a l => simp [htg]

lemma calcStep_eq (p : Prompt) (fuzzy : Bool) (acc : ℕ × Finset JSStr) (qt : JSStr) :
    calcStep p fuzzy acc qt =
      (acc.1 + specTokenWeight p fuzzy qt,
       if specMatchesAnyField p fuzzy qt then insert qt acc.2 else acc.2) := by
  unfold calcStep specTokenWeight specMatchesAnyField
  rw [title_guard, description_guard, content_guard, tags_guard]
  cases h1 : termMatches qt (promptTitleTokens p) fuzzy FUZZY_MATCH_THRESHOLD <;>
    cases h2 : termMatches qt (promptDescriptionTokens p) fuzzy FUZZY_MATCH_THRESHOLD <;>
    cases h3 : termMatches qt (promptContentTokens p) fuzzy FUZZY_MATCH_THRESHOLD <;>
    cases h4 : termMatches qt (promptTagsTokens p) fuzzy FUZZY_MATCH_THRESHOLD <;>
    simp

lemma calcFold (p : Prompt) (fuzzy : Bool) :
    ∀ (qts : List JSStr) (s : ℕ) (m : Finset JSStr),
      qts.foldl (calcStep p fuzzy) (s, m) =
        (s + (qts.map (specTokenWeight p fuzzy)).sum,
         m ∪ (qts.filter (specMatchesAnyField p fuzzy)).toFinset) := by
  intro qts
  induction qts with
  | nil => intro s m; simp
  | cons a l ih =>
    intro s m
    rw [List.foldl_cons, calcStep_eq, ih]
    cases ha : specMatchesAnyField p fuzzy a
    · simp [List.filter_cons, ha, add_assoc]
    · simp [List.filter_cons, ha, List.toFinset_cons, Finset.insert_union,
        Finset.union_insert, add_assoc]

lemma joinSpace_ne_nil (qts : List JSStr) (hne : qts ≠ [])
    (htok : ∀ t ∈ qts, t ≠ []) : joinSpace qts ≠ [] := by
  cases qts with
  | nil => exact absurd rfl hne
  | cons a l =>
    cases l with
    | nil => exact htok a (by simp)
    | cons b r =>
      show a ++ ' ' :: joinSpace (b :: r) ≠ []
      simp

lemma jsIncludes_nil (sub : JSStr) (h : sub ≠ []) : jsIncludes [] sub = false := by
  cases sub with
  | nil => exact absurd rfl h
  | cons c cs => rfl

lemma phrase_guard (x fq : JSStr) (hfq : fq ≠ []) :
    (!x.isEmpty && jsIncludes (jsToLower x) fq) = jsIncludes (jsToLower x) fq := by
  cases x with
  | nil => simp [jsToLower, jsIncludes_nil fq hfq]
  | cons a l => simp

lemma phraseBonus_eq (p : Prompt) (qts : List JSStr) (hne : qts ≠ [])
    (htok : ∀ t ∈ qts, t ≠ []) : phraseBonus p qts = specPhraseBonus p qts := by
  unfold phraseBonus specPhraseBonus
  have hfq : joinSpace qts ≠ [] := joinSpace_ne_nil qts hne htok
  have hlen : (joinSpace qts).length > 0 := List.length_pos.mpr hfq
  rw [if_pos hlen, phrase_guard _ _ hfq, phrase_guard _ _ hfq, phrase_guard _ _ hfq]

/-- C1: for every document and non-empty list of (nonempty) query tokens,
calculateScore is the sum over tokens of the matched field weights
(title 10, description 5, content 3, tags 7), plus 5 per distinct token
that matched at least one field, plus the mutually exclusive phrase bonus
(title 20, else description 15, else content 10). -/
theorem calculateScore_spec (p : Prompt) (qts : List JSStr) (fuzzy : Bool)
    (hne : qts ≠ []) (htok : ∀ t ∈ qts, t ≠ []) :
    calculateScore p qts fuzzy = specScore p qts fuzzy := by
  unfold calculateScore specScore
  rw [calcFold, phraseBonus_eq p qts hne htok]
  simp [Finset.empty_union, List.card_toFinset, Nat.mul_comm]
  rw [← List.toFinset_filter, List.card_toFinset]

/-- Witness for C1: a concrete prompt and two-token query. -/
theorem calculateScore_spec_witness :
    ((["react".toList, "dropdown".toList] : List JSStr) ≠ [] ∧
      ∀ t ∈ (["react".toList, "dropdown".toList] : List JSStr), t ≠ []) ∧
    calculateScore
        { title := "React Component Creator".toList,
          content := "the dropdown menu".toList,
          tags := some ["react".toList, "typescript".toList] }
        ["react".toList, "dropdown".toList] false =
      specScore
        { title := "React Component Creator".toList,
          content := "the dropdown menu".toList,
          tags := some ["react".toList, "typescript".toList] }
        ["react".toList, "dropdown".toList] false :=
  ⟨⟨by decide, by decide⟩,
    calculateScore_spec _ _ false (by decide) (by decide)⟩

-- --- C3: virtualization coverage ---

namespace VirtualList

/-- The coverage part of claim C3 as stated, at given parameters: an
element exists for every index i with
max(0, floor(scrollTop/itemHeight) - buffer) ≤ i ≤
min(itemCount - 1, ceil((scrollTop+viewportHeight)/itemHeight) + buffer)
after a render pass. -/
def coverageClaimAt (itemHeight buffer containerHeight total scrollTop : ℕ)
    (grid : Bool) (colCount : ℕ) (st : List Block) : Prop :=
  ∀ i, scrollTop / itemHeight - buffer ≤ i →
    i ≤ min (total - 1)
        ((scrollTop + containerHeight + itemHeight - 1) / itemHeight + buffer) →
    ∃ b ∈ renderVisible itemHeight buffer containerHeight total scrollTop grid
        colCount st, b.idx = i

/-- Counterexample to C3 as stated: with ITEM_HEIGHT = 140, BUFFER = 6,
containerHeight = 600, 20 items, scrollTop = 0, the claimed endIndex is
min(19, ceil(600/140)+6) = 11, but the code renders indices 0..10 only
(its upper bound is min(total, ceil+buffer) used exclusively). -/
theorem renderVisible_claim_counterexample :
    ¬ coverageClaimAt 140 6 600 20 0 false 1 [] := by
  intro hcl
  obtain ⟨b, hb, hidx⟩ := hcl 11 (by decide) (by decide)
  exact absurd (hidx ▸ List.mem_map_of_mem Block.idx hb) (by decide)

/-- C3 amended: after a render pass whose incoming blocks sit at their
computed offsets, a block exists for every index i with
startIdx ≤ i < endIdx where endIdx = min(itemCount, ceil(...)+buffer)
(exclusive upper bound), every block lies in that range, and every block
sits at its index's computed offset. -/
theorem renderVisible_range (itemHeight buffer containerHeight total scrollTop : ℕ)
    (grid : Bool) (colCount : ℕ) (st : List Block)
    (hpos : ∀ b ∈ st, b.top = posTop itemHeight grid colCount b.idx) :
    (∀ i, scrollTop / itemHeight - buffer ≤ i →
      i < min total
          ((scrollTop + containerHeight + itemHeight - 1) / itemHeight + buffer) →
      ∃ b ∈ renderVisible itemHeight buffer containerHeight total scrollTop grid
          colCount st, b.idx = i) ∧
    (∀ b ∈ renderVisible itemHeight buffer containerHeight total scrollTop grid
        colCount st,
      scrollTop / itemHeight - buffer ≤ b.idx ∧
      b.idx < min total
          ((scrollTop + containerHeight + itemHeight - 1) / itemHeight + buffer) ∧
      b.top = posTop itemHeight grid colCount b.idx) := by
  set startIdx := scrollTop / itemHeight - buffer with hstart
  set endIdx := min total
      ((scrollTop + containerHeight + itemHeight - 1) / itemHeight + buffer) with hend
  have hren : renderVisible itemHeight buffer containerHeight total scrollTop grid
      colCount st =
    (st.filter (fun b => startIdx ≤ b.idx && b.idx < endIdx)) ++
      (((List.range' startIdx (endIdx - startIdx)).filter
          (fun i => (st.filter (fun b => startIdx ≤ b.idx && b.idx < endIdx)).all
            (fun b => b.idx ≠ i))).map
        (fun i => Block.mk i (posTop itemHeight grid colCount i))) := rfl
  rw [hren]
  constructor
  · intro i hlow hhigh
    by_cases hk : ∃ b ∈ st.filter (fun b => startIdx ≤ b.idx && b.idx < endIdx),
        b.idx = i
    · obtain ⟨b, hb, hbi⟩ := hk
      exact ⟨b, List.mem_append_left _ hb, hbi⟩
    · refine ⟨Block.mk i (posTop itemHeight grid colCount i),
        List.mem_append_right _ ?_, rfl⟩
      apply List.mem_map_of_mem
      rw [List.mem_filter]
      constructor
      · rw [List.mem_range']
        exact ⟨i - startIdx, by omega, by omega⟩
      · rw [List.all_eq_true]
        intro b hb
        simp only [decide_eq_true_eq]
        intro hbi
        exact hk ⟨b, hb, hbi⟩
  · intro b hb
    rcases List.mem_append.mp hb with hb | hb
    · rw [List.mem_filter] at hb
      obtain ⟨hbs, hcond⟩ := hb
      simp only [Bool.and_eq_true, decide_eq_true_eq] at hcond
      exact ⟨hcond.1, hcond.2, hpos b hbs⟩
    · rw [List.mem_map] at hb
      obtain ⟨i, hi, rfl⟩ := hb
      rw [List.mem_filter, List.mem_range'] at hi
      obtain ⟨⟨k, hk, rfl⟩, _⟩ := hi
      refine ⟨?_, ?_, rfl⟩
      · show startIdx ≤ startIdx + 1 * k
        omega
      · show startIdx + 1 * k < endIdx
        omega

/-- Witness for the amended C3: one render pass from the empty state. -/
theorem renderVisible_range_witness :
    (∀ b ∈ ([] : List Block), b.top = posTop 140 false 1 b.idx) ∧
    ((∀ i, 0 / 140 - 6 ≤ i → i < min 20 ((0 + 600 + 140 - 1) / 140 + 6) →
        ∃ b ∈ renderVisible 140 6 600 20 0 false 1 [], b.idx = i) ∧
      (∀ b ∈ renderVisible 140 6 600 20 0 false 1 [],
        0 / 140 - 6 ≤ b.idx ∧ b.idx < min 20 ((0 + 600 + 140 - 1) / 140 + 6) ∧
        b.top = posTop 140 false 1 b.idx)) :=
  ⟨fun b hb => absurd hb (List.not_mem_nil b),
    renderVisible_range 140 6 600 20 0 false 1 []
      (fun b hb => absurd hb (List.not_mem_nil b))⟩

end VirtualList

-- --- C2: exception propagation out of search ---

/-- A filters object holding a circular reference: every field the engine
reads is absent, but JSON.stringify on it throws. -/
def cyclicFilters : Filters := { cyclic := true }

/-- C2 fails on the code: search has no try/catch, so the TypeError from
JSON.stringify(filters) while building the cache key (line 229), and the
one from JSON.parse(JSON.stringify(filters)) inside logSearchQuery
(line 321, reached even with useCache=false), both propagate to the
caller instead of being swallowed. -/
theorem search_throws_on_unserializable_filters :
    search (fun _ => none) id [] [] "a".toList { filters := cyclicFilters } =
      .error .typeError ∧
    search (fun _ => none) id [] [] "a".toList
        { filters := cyclicFilters, useCache := false } =
      .error .typeError :=
  ⟨rfl, rfl⟩

-- --- Cache behaviour lemmas and C4 ---

/-- The cache key search builds for a query and options. -/
def searchKey (q : JSStr) (f : Filters) (fuzzy : Bool) : JSStr :=
  mkCacheKey (jsTrim q) (filtersJson f) fuzzy

lemma cacheLookup_nil (k : JSStr) : cacheLookup [] k = none := rfl

lemma cacheLookup_eq_none_iff (c : Cache) (k : JSStr) :
    cacheLookup c k = none ↔ ∀ e ∈ c, e.1 ≠ k := by
  unfold cacheLookup
  rw [Option.map_eq_none', List.find?_eq_none]
  simp only [decide_eq_true_eq]

lemma cacheLookup_insert_self (c : Cache) (k : JSStr) (v : SearchResult)
    (h : cacheLookup c k = none) : cacheLookup (cacheInsert c k v) k = some v := by
  unfold cacheInsert cacheLookup
  rw [List.find?_append]
  have hd : List.find? (fun e => decide (e.1 = k))
      (if CACHE_MAX_SIZE ≤ c.length then c.drop 1 else c) = none := by
    rw [List.find?_eq_none]
    intro x hx
    have hxc : x ∈ c := by
      by_cases hc : CACHE_MAX_SIZE ≤ c.length
      · rw [if_pos hc] at hx
        exact List.mem_of_mem_drop hx
      · rw [if_neg hc] at hx
        exact hx
    have := (cacheLookup_eq_none_iff c k).mp h x hxc
    simp [this]
  rw [hd]
  simp [List.find?]

lemma cacheLookup_insert_other (c : Cache) (k k2 : JSStr) (v : SearchResult)
    (hne : k2 ≠ k) (h : cacheLookup c k2 = none) :
    cacheLookup (cacheInsert c k v) k2 = none := by
  rw [cacheLookup_eq_none_iff] at h ⊢
  intro e he
  unfold cacheInsert at he
  rcases List.mem_append.mp he with he | he
  · apply h
    by_cases hc : CACHE_MAX_SIZE ≤ c.length
    · rw [if_pos hc] at he
      exact List.mem_of_mem_drop he
    · rw [if_neg hc] at he
      exact he
  · rw [List.mem_singleton] at he
    subst he
    exact fun hk => hne hk.symm

section SearchPaths

variable (dv : JSStr → Option ℤ) (endOfDay : ℤ → ℤ)

/-- search on a cache miss with caching enabled: computes the results,
inserts them at the cache key and returns them. -/
lemma search_miss (c : Cache) (docs : List Prompt) (q : JSStr) (f : Filters)
    (fuzzy : Bool) (hcyc : f.cyclic = false)
    (hmiss : cacheLookup c (searchKey q f fuzzy) = none) :
    search dv endOfDay c docs q { filters := f, fuzzy := fuzzy, useCache := true } =
      .ok (computeResults dv endOfDay docs f (tokenizeAndNormalize (jsTrim q)) fuzzy,
        cacheInsert c (searchKey q f fuzzy)
          (computeResults dv endOfDay docs f (tokenizeAndNormalize (jsTrim q)) fuzzy)) := by
  unfold search searchKey at *
  simp [stringifyFilters, hcyc, hmiss, logSearchQueryE, Bind.bind, Except.bind, Pure.pure, Except.pure]

/-- search on a cache hit with caching enabled: returns the cached value
and leaves the cache unchanged. -/
lemma search_hit (c : Cache) (docs : List Prompt) (q : JSStr) (f : Filters)
    (fuzzy : Bool) (r : SearchResult) (hcyc : f.cyclic = false)
    (hhit : cacheLookup c (searchKey q f fuzzy) = some r) :
    search dv endOfDay c docs q { filters := f, fuzzy := fuzzy, useCache := true } =
      .ok (r, c) := by
  unfold search searchKey at *
  simp [stringifyFilters, hcyc, hhit, logSearchQueryE, Bind.bind, Except.bind, Pure.pure, Except.pure]

/-- search with caching disabled: computes the results fresh without
touching the cache. -/
lemma search_noCache (c : Cache) (docs : List Prompt) (q : JSStr) (f : Filters)
    (fuzzy : Bool) (hcyc : f.cyclic = false) :
    search dv endOfDay c docs q { filters := f, fuzzy := fuzzy, useCache := false } =
      .ok (computeResults dv endOfDay docs f (tokenizeAndNormalize (jsTrim q)) fuzzy,
        c) := by
  unfold search
  simp [hcyc, logSearchQueryE]

/-- C4: starting from a cache with no entry for the key, two consecutive
identical cached searches return structurally equal results, equal to a
fresh uncached search on the same inputs. -/
theorem search_cache_transparent (c : Cache) (docs : List Prompt) (q : JSStr)
    (f : Filters) (fuzzy : Bool) (hcyc : f.cyclic = false)
    (hmiss : cacheLookup c (searchKey q f fuzzy) = none) :
    ∃ r1 c1 r2 c2 r3 c3,
      search dv endOfDay c docs q
          { filters := f, fuzzy := fuzzy, useCache := true } = .ok (r1, c1) ∧
      search dv endOfDay c1 docs q
          { filters := f, fuzzy := fuzzy, useCache := true } = .ok (r2, c2) ∧
      search dv endOfDay c docs q
          { filters := f, fuzzy := fuzzy, useCache := false } = .ok (r3, c3) ∧
      r1.results = r2.results ∧ r1.results = r3.results := by
  set R := computeResults dv endOfDay docs f (tokenizeAndNormalize (jsTrim q)) fuzzy
    with hR
  set K := searchKey q f fuzzy with hK
  refine ⟨R, cacheInsert c K R, R, cacheInsert c K R, R, c,
    search_miss dv endOfDay c docs q f fuzzy hcyc hmiss, ?_,
    search_noCache dv endOfDay c docs q f fuzzy hcyc, rfl, rfl⟩
  exact search_hit dv endOfDay _ docs q f fuzzy R hcyc
    (cacheLookup_insert_self c K R hmiss)

end SearchPaths

/-- Witness for C4: empty cache, one document, one-word query. -/
theorem search_cache_transparent_witness :
    ((({} : Filters).cyclic = false) ∧
      cacheLookup [] (searchKey "hi".toList {} false) = none) ∧
    (∃ r1 c1 r2 c2 r3 c3,
      search (fun _ => none) id [] [{ title := "hi".toList }] "hi".toList
          { filters := {}, fuzzy := false, useCache := true } = .ok (r1, c1) ∧
      search (fun _ => none) id c1 [{ title := "hi".toList }] "hi".toList
          { filters := {}, fuzzy := false, useCache := true } = .ok (r2, c2) ∧
      search (fun _ => none) id [] [{ title := "hi".toList }] "hi".toList
          { filters := {}, fuzzy := false, useCache := false } = .ok (r3, c3) ∧
      r1.results = r2.results ∧ r1.results = r3.results) :=
  ⟨⟨rfl, rfl⟩,
    search_cache_transparent (fun _ => none) id [] [{ title := "hi".toList }]
      "hi".toList {} false rfl rfl⟩

-- --- C8: empty-query search is filter plus date sort ---

lemma applyFilters_category (dv : JSStr → Option ℤ) (endOfDay : ℤ → ℤ)
    (docs : List Prompt) (catv : JSStr) (hcat : catv ≠ []) :
    applyFilters dv endOfDay docs { category := some catv } =
      docs.filter (fun p => decide (p.category = catv)) := by
  have hce : catv.isEmpty = false := by
    cases catv with
    | nil => exact absurd rfl hcat
    | cons a l => rfl
  simp [applyFilters, hce]

lemma dateLe_some (dv : JSStr → Option ℤ) (a b : Prompt) (va vb : ℤ)
    (hva : promptDate dv a = some va) (hvb : promptDate dv b = some vb) :
    dateLe dv a b = decide (vb ≤ va) := by
  unfold dateLe
  rw [hva, hvb]

lemma dateLe_trans (dv : JSStr → Option ℤ) (hdv : ∀ s, (dv s).isSome) :
    ∀ a b c3 : Prompt, dateLe dv a b = true → dateLe dv b c3 = true →
      dateLe dv a c3 = true := by
  intro a b c3 hab hbc
  have ha : (promptDate dv a).isSome := hdv _
  have hb : (promptDate dv b).isSome := hdv _
  have hc : (promptDate dv c3).isSome := hdv _
  obtain ⟨va, hva⟩ := Option.isSome_iff_exists.mp ha
  obtain ⟨vb, hvb⟩ := Option.isSome_iff_exists.mp hb
  obtain ⟨vc, hvc⟩ := Option.isSome_iff_exists.mp hc
  rw [dateLe_some dv a b va vb hva hvb] at hab
  rw [dateLe_some dv b c3 vb vc hvb hvc] at hbc
  rw [dateLe_some dv a c3 va vc hva hvc]
  simp only [decide_eq_true_eq] at *
  omega

lemma dateLe_total (dv : JSStr → Option ℤ) (hdv : ∀ s, (dv s).isSome) :
    ∀ a b : Prompt, (dateLe dv a b || dateLe dv b a) = true := by
  intro a b
  have ha : (promptDate dv a).isSome := hdv _
  have hb : (promptDate dv b).isSome := hdv _
  obtain ⟨va, hva⟩ := Option.isSome_iff_exists.mp ha
  obtain ⟨vb, hvb⟩ := Option.isSome_iff_exists.mp hb
  rw [dateLe_some dv a b va vb hva hvb, dateLe_some dv b a vb va hvb hva]
  simp only [Bool.or_eq_true, decide_eq_true_eq]
  omega

lemma computeResults_noTokens (dv : JSStr → Option ℤ) (endOfDay : ℤ → ℤ)
    (docs : List Prompt) (f : Filters) (fuzzy : Bool) :
    computeResults dv endOfDay docs f [] fuzzy =
      { results := ((if filtersHasKeys f then applyFilters dv endOfDay docs f
              else docs).mergeSort (dateLe dv)).map
            (fun p => { p with _searchScore := none }),
        highlightTerms := [] } := rfl

/-- C8: for every documents collection and every options value (any
serializable filters, any fuzzy flag, caching on or off), a query that
normalizes to no tokens takes the no-scoring branch: search returns the
filtered documents sorted descending by updated_at falling back to
created_at with empty highlightTerms, and under a pure category filter
exactly the documents of that category.  All dates are assumed parseable
(an unparseable date makes the JS comparator return NaN, which the sort
treats as equality, so the spec ordering statement presumes real dates);
with caching on, the key is assumed not previously cached (a hit replays
a value this same computation produced earlier). -/
theorem search_empty_query_sorted (dv : JSStr → Option ℤ) (endOfDay : ℤ → ℤ)
    (hdv : ∀ s, (dv s).isSome) (c : Cache) (docs : List Prompt) (q : JSStr)
    (opts : Options) (hcyc : opts.filters.cyclic = false)
    (hq : tokenizeAndNormalize (jsTrim q) = [])
    (hmiss : opts.useCache = true →
      cacheLookup c (searchKey q opts.filters opts.fuzzy) = none) :
    ∃ res c2,
      search dv endOfDay c docs q opts = .ok (res, c2) ∧
      res.highlightTerms = [] ∧
      res.results.Perm
        ((if filtersHasKeys opts.filters then
            applyFilters dv endOfDay docs opts.filters else docs).map
          (fun p => { p with _searchScore := none })) ∧
      res.results.Pairwise (fun a b => dateLe dv a b = true) ∧
      (∀ catv : JSStr, catv ≠ [] → opts.filters = { category := some catv } →
        res.results.Perm ((docs.filter (fun p => decide (p.category = catv))).map
          (fun p => { p with _searchScore := none }))) := by
  obtain ⟨f, fz, uc⟩ := opts
  have hsearch : ∃ c2, search dv endOfDay c docs q ⟨f, fz, uc⟩ =
      .ok (computeResults dv endOfDay docs f (tokenizeAndNormalize (jsTrim q)) fz,
        c2) := by
    cases uc with
    | true => exact ⟨_, search_miss dv endOfDay c docs q f fz hcyc (hmiss rfl)⟩
    | false => exact ⟨c, search_noCache dv endOfDay c docs q f fz hcyc⟩
  obtain ⟨c2, hs⟩ := hsearch
  rw [hq, computeResults_noTokens] at hs
  refine ⟨_, c2, hs, rfl, ?_, ?_, ?_⟩
  · exact (List.mergeSort_perm _ _).map _
  · show (((if filtersHasKeys f then applyFilters dv endOfDay docs f
        else docs).mergeSort (dateLe dv)).map
        (fun p => { p with _searchScore := none })).Pairwise
      (fun a b => dateLe dv a b = true)
    rw [List.pairwise_map]
    exact List.sorted_mergeSort (dateLe_trans dv hdv) (dateLe_total dv hdv) _
  · intro catv hcat hfe
    show (((if filtersHasKeys f then applyFilters dv endOfDay docs f
        else docs).mergeSort (dateLe dv)).map
        (fun p => { p with _searchScore := none })).Perm _
    subst hfe
    have hfk : filtersHasKeys { category := some catv } = true := rfl
    rw [if_pos hfk, applyFilters_category dv endOfDay docs catv hcat]
    exact (List.mergeSort_perm _ _).map _

/-- Witness for C8: a one-document list, a pure category filter, caching
on; the category conclusion is instantiated at that filter. -/
theorem search_empty_query_sorted_witness :
    ((∀ s, ((fun _ => some 0 : JSStr → Option ℤ) s).isSome) ∧
      (({ category := some "cat1".toList } : Filters).cyclic = false) ∧
      tokenizeAndNormalize (jsTrim []) = [] ∧
      cacheLookup [] (searchKey [] { category := some "cat1".toList } false) =
        none) ∧
    (∃ res c2,
      search (fun _ => some 0) id []
          ([{ category := "cat1".toList }] : List Prompt) ([] : JSStr)
          { filters := { category := some "cat1".toList }, fuzzy := false,
            useCache := true } =
        .ok (res, c2) ∧
      res.highlightTerms = [] ∧
      res.results.Perm
        ((if filtersHasKeys { category := some "cat1".toList } then
            applyFilters (fun _ => some 0) id
              ([{ category := "cat1".toList }] : List Prompt)
              { category := some "cat1".toList }
          else ([{ category := "cat1".toList }] : List Prompt)).map
          (fun p => { p with _searchScore := none })) ∧
      res.results.Pairwise (fun a b => dateLe (fun _ => some 0) a b = true) ∧
      (∀ catv : JSStr, catv ≠ [] →
        ({ category := some "cat1".toList } : Filters) =
          { category := some catv } →
        res.results.Perm
          ((([{ category := "cat1".toList }] : List Prompt).filter
              (fun p => decide (p.category = catv))).map
            (fun p => { p with _searchScore := none })))) :=
  ⟨⟨fun _ => rfl, rfl, rfl, rfl⟩,
    search_empty_query_sorted (fun _ => some 0) id (fun _ => rfl) []
      ([{ category := "cat1".toList }] : List Prompt) []
      { filters := { category := some "cat1".toList }, fuzzy := false,
        useCache := true }
      rfl rfl (fun _ => rfl)⟩

-- --- C5: cache capacity bound and FIFO eviction ---

/-- The cache-state transition of one search call (the returned cache of
search; on an exception the module cache is unchanged). -/
def searchStep (dv : JSStr → Option ℤ) (endOfDay : ℤ → ℤ) (docs : List Prompt)
    (opts : Options) (c : Cache) (q : JSStr) : Cache :=
  match search dv endOfDay c docs q opts with
  | .ok r => r.2
  | .error _ => c

/-- Folding the cache update of search over a list of key/value pairs. -/
def foldInsert (c : Cache) (es : List (JSStr × SearchResult)) : Cache :=
  es.foldl (fun c2 e => cacheInsert c2 e.1 e.2) c

/-- The cache entry one search call creates. -/
def searchEntry (dv : JSStr → Option ℤ) (endOfDay : ℤ → ℤ) (docs : List Prompt)
    (f : Filters) (fz : Bool) (q : JSStr) : JSStr × SearchResult :=
  (searchKey q f fz,
    computeResults dv endOfDay docs f (tokenizeAndNormalize (jsTrim q)) fz)

lemma foldInsert_cons (c : Cache) (e : JSStr × SearchResult)
    (es : List (JSStr × SearchResult)) :
    foldInsert c (e :: es) = foldInsert (cacheInsert c e.1 e.2) es := rfl

lemma cacheLookup_isSome_iff (c : Cache) (k : JSStr) :
    (cacheLookup c k).isSome ↔ ∃ e ∈ c, e.1 = k := by
  unfold cacheLookup
  rw [Option.isSome_map', List.find?_isSome]
  simp only [decide_eq_true_eq]

lemma foldInsert_eq_drop :
    ∀ (es : List (JSStr × SearchResult)) (c : Cache), c.length ≤ 100 →
      foldInsert c es = (c ++ es).drop (c.length + es.length - 100) := by
  intro es
  induction es with
  | nil =>
    intro c hc
    simp only [foldInsert, List.foldl_nil, List.length_nil, List.append_nil,
      Nat.add_zero]
    have h0 : c.length - 100 = 0 := by omega
    rw [h0, List.drop_zero]
  | cons e es ih =>
    intro c hc
    obtain ⟨k, v⟩ := e
    rw [foldInsert_cons]
    by_cases h100 : (100 : ℕ) ≤ c.length
    · have hclen : c.length = 100 := le_antisymm hc h100
      have hins : cacheInsert c k v = c.drop 1 ++ [(k, v)] := by
        unfold cacheInsert CACHE_MAX_SIZE
        rw [if_pos h100]
      rw [hins, ih _ (by
        simp only [List.length_append, List.length_drop, List.length_singleton,
          List.length_cons, List.length_nil]
        omega)]
      have harith : (c.drop 1 ++ [(k, v)]).length + es.length - 100 = es.length := by
        simp only [List.length_append, List.length_drop, List.length_singleton,
          List.length_cons, List.length_nil]
        omega
      rw [harith]
      have hstep : List.drop (c.length + ((k, v) :: es).length - 100)
          (c ++ (k, v) :: es) =
          List.drop es.length (c.drop 1 ++ (k, v) :: es) := by
        have h1 : c.length + ((k, v) :: es).length - 100 = 1 + es.length := by
          simp only [List.length_cons]
          omega
        rw [h1, ← List.drop_drop, List.drop_append_eq_append_drop]
        have h2 : 1 - c.length = 0 := by omega
        rw [h2, List.drop_zero]
      rw [hstep, List.append_assoc, List.singleton_append]
    · have hins : cacheInsert c k v = c ++ [(k, v)] := by
        unfold cacheInsert CACHE_MAX_SIZE
        rw [if_neg h100]
      rw [hins, ih _ (by
        simp only [List.length_append, List.length_singleton, List.length_cons,
          List.length_nil]
        omega)]
      have harith : (c ++ [(k, v)]).length + es.length - 100 =
          c.length + ((k, v) :: es).length - 100 := by
        simp only [List.length_append, List.length_singleton, List.length_cons,
          List.length_nil]
        omega
      rw [harith, List.append_assoc, List.singleton_append]

lemma foldInsert_nil_drop (es : List (JSStr × SearchResult)) :
    foldInsert [] es = es.drop (es.length - 100) := by
  rw [foldInsert_eq_drop es [] (by simp)]
  simp

lemma foldInsert_length (es : List (JSStr × SearchResult)) (c : Cache)
    (hc : c.length ≤ 100) : (foldInsert c es).length ≤ 100 := by
  rw [foldInsert_eq_drop es c hc]
  simp only [List.length_drop, List.length_append]
  omega

section CacheRun

variable (dv : JSStr → Option ℤ) (endOfDay : ℤ → ℤ) (docs : List Prompt)
  (f : Filters) (fz : Bool)

lemma searchStep_miss (c : Cache) (q : JSStr) (hcyc : f.cyclic = false)
    (hmiss : cacheLookup c (searchKey q f fz) = none) :
    searchStep dv endOfDay docs { filters := f, fuzzy := fz, useCache := true } c q =
      cacheInsert c (searchKey q f fz)
        (computeResults dv endOfDay docs f (tokenizeAndNormalize (jsTrim q)) fz) := by
  unfold searchStep
  rw [search_miss dv endOfDay c docs q f fz hcyc hmiss]

/-- A run of search calls whose keys are fresh and mutually distinct is
the pure fold of the cache-insert operation. -/
lemma run_eq_foldInsert (hcyc : f.cyclic = false) :
    ∀ (qs : List JSStr) (c : Cache),
      (∀ q ∈ qs, cacheLookup c (searchKey q f fz) = none) →
      (qs.map (fun q => searchKey q f fz)).Nodup →
      qs.foldl (searchStep dv endOfDay docs
          { filters := f, fuzzy := fz, useCache := true }) c =
        foldInsert c (qs.map (searchEntry dv endOfDay docs f fz)) := by
  intro qs
  induction qs with
  | nil => intro c _ _; rfl
  | cons q qs ih =>
    intro c hfresh hnd
    rw [List.foldl_cons,
      searchStep_miss dv endOfDay docs f fz c q hcyc (hfresh q (by simp))]
    rw [List.map_cons, List.nodup_cons] at hnd
    have hfresh2 : ∀ q2 ∈ qs, cacheLookup
        (cacheInsert c (searchKey q f fz)
          (computeResults dv endOfDay docs f (tokenizeAndNormalize (jsTrim q)) fz))
        (searchKey q2 f fz) = none := by
      intro q2 hq2
      apply cacheLookup_insert_other
      · intro heq
        exact hnd.1 (heq ▸ List.mem_map_of_mem _ hq2)
      · exact hfresh q2 (by simp [hq2])
    rw [ih _ hfresh2 hnd.2, List.map_cons, foldInsert_cons]
    rfl

/-- C5: running 150 search calls with pairwise distinct cache keys from
an empty cache, the cache size never exceeds 100 at any point, the keys
of the 50 oldest calls are no longer retrievable, and the keys of the 100
newest calls are. -/
theorem search_cache_bound_fifo (qs : List JSStr) (hcyc : f.cyclic = false)
    (hlen : qs.length = 150)
    (hnodup : (qs.map (fun q => searchKey q f fz)).Nodup) :
    (∀ n : ℕ, ((qs.take n).foldl (searchStep dv endOfDay docs
        { filters := f, fuzzy := fz, useCache := true }) []).length ≤ 100) ∧
    (∀ q ∈ qs.take 50,
      cacheLookup (qs.foldl (searchStep dv endOfDay docs
          { filters := f, fuzzy := fz, useCache := true }) [])
        (searchKey q f fz) = none) ∧
    (∀ q ∈ qs.drop 50,
      (cacheLookup (qs.foldl (searchStep dv endOfDay docs
          { filters := f, fuzzy := fz, useCache := true }) [])
        (searchKey q f fz)).isSome) := by
  have hrunAll := run_eq_foldInsert dv endOfDay docs f fz hcyc qs []
    (fun q _ => cacheLookup_nil _) hnodup
  have hfinal : qs.foldl (searchStep dv endOfDay docs
      { filters := f, fuzzy := fz, useCache := true }) [] =
      (qs.map (searchEntry dv endOfDay docs f fz)).drop 50 := by
    rw [hrunAll, foldInsert_nil_drop]
    have h50 : (qs.map (searchEntry dv endOfDay docs f fz)).length - 100 = 50 := by
      rw [List.length_map, hlen]
    rw [h50]
  refine ⟨?_, ?_, ?_⟩
  · intro n
    have hndn : ((qs.take n).map (fun q => searchKey q f fz)).Nodup :=
      ((List.take_sublist n qs).map (fun q => searchKey q f fz)).nodup hnodup
    rw [run_eq_foldInsert dv endOfDay docs f fz hcyc (qs.take n) []
      (fun q _ => cacheLookup_nil _) hndn]
    exact foldInsert_length _ _ (by simp)
  · intro q hq
    rw [hfinal, cacheLookup_eq_none_iff]
    intro e he heq
    have hkeysplit : qs.map (fun q2 => searchKey q2 f fz) =
        (qs.take 50).map (fun q2 => searchKey q2 f fz) ++
          (qs.drop 50).map (fun q2 => searchKey q2 f fz) := by
      rw [← List.map_append, List.take_append_drop]
    rw [hkeysplit, List.nodup_append] at hnodup
    have hqmem : searchKey q f fz ∈ (qs.take 50).map (fun q2 => searchKey q2 f fz) :=
      List.mem_map_of_mem _ hq
    have hemem : e.1 ∈ (qs.drop 50).map (fun q2 => searchKey q2 f fz) := by
      have h1 : e.1 ∈ ((qs.map (searchEntry dv endOfDay docs f fz)).drop 50).map
          Prod.fst := List.mem_map_of_mem _ he
      rw [List.map_drop, List.map_map] at h1
      rw [List.map_drop]
      exact h1
    exact hnodup.2.2 hqmem (heq ▸ hemem)
  · intro q hq
    rw [hfinal, cacheLookup_isSome_iff]
    refine ⟨searchEntry dv endOfDay docs f fz q, ?_, rfl⟩
    rw [← List.map_drop]
    exact List.mem_map_of_mem _ hq

end CacheRun

-- --- Witness material for C5 ---

/-- 150 pairwise distinct queries. -/
def witQueries : List JSStr := (List.range 150).map (fun n => List.replicate (n + 1) 'a')

lemma dropWhile_ws_replicate_a (m : ℕ) :
    (List.replicate (m + 1) 'a').dropWhile isWsChar = List.replicate (m + 1) 'a' := by
  rw [List.replicate_succ, List.dropWhile_cons]
  rw [(by decide : isWsChar 'a' = false)]
  simp

lemma jsTrim_replicate_a (n : ℕ) :
    jsTrim (List.replicate (n + 1) 'a') = List.replicate (n + 1) 'a' := by
  unfold jsTrim
  rw [dropWhile_ws_replicate_a, List.reverse_replicate, dropWhile_ws_replicate_a,
    List.reverse_replicate]

lemma witQueries_length : witQueries.length = 150 := by
  unfold witQueries
  rw [List.length_map, List.length_range]

lemma witQueries_key_nodup :
    (witQueries.map (fun q => searchKey q {} false)).Nodup := by
  unfold witQueries
  rw [List.map_map]
  have hinj : Function.Injective
      ((fun q => searchKey q {} false) ∘ (fun n => List.replicate (n + 1) 'a')) := by
    intro m n hmn
    simp only [Function.comp] at hmn
    unfold searchKey mkCacheKey at hmn
    rw [jsTrim_replicate_a, jsTrim_replicate_a] at hmn
    have := congrArg List.length hmn
    simp only [List.length_append, List.length_replicate, List.length_cons] at this
    omega
  exact List.Nodup.map hinj (List.nodup_range 150)

/-- Witness for C5: the 150 queries a, aa, aaa, ... against an empty
document list. -/
theorem search_cache_bound_fifo_witness :
    ((({} : Filters).cyclic = false) ∧ witQueries.length = 150 ∧
      (witQueries.map (fun q => searchKey q {} false)).Nodup) ∧
    ((∀ n : ℕ, ((witQueries.take n).foldl (searchStep (fun _ => none) id []
        { filters := {}, fuzzy := false, useCache := true }) []).length ≤ 100) ∧
      (∀ q ∈ witQueries.take 50,
        cacheLookup (witQueries.foldl (searchStep (fun _ => none) id []
            { filters := {}, fuzzy := false, useCache := true }) [])
          (searchKey q {} false) = none) ∧
      (∀ q ∈ witQueries.drop 50,
        (cacheLookup (witQueries.foldl (searchStep (fun _ => none) id []
            { filters := {}, fuzzy := false, useCache := true }) [])
          (searchKey q {} false)).isSome)) :=
  ⟨⟨rfl, witQueries_length, witQueries_key_nodup⟩,
    search_cache_bound_fifo (fun _ => none) id [] {} false witQueries rfl
      witQueries_length witQueries_key_nodup⟩

-- --- C10: search never mutates its inputs (heap-level frame property) ---

namespace HeapModel

lemma heapGet_append_lt (h t : Heap) (a : ℕ) (ha : a < h.length) :
    heapGet (h ++ t) a = heapGet h a := by
  unfold heapGet
  exact List.getD_append h t _ a ha

lemma mapAlloc_fst (f : Prompt → Prompt) :
    ∀ (as : List ℕ) (h : Heap), (∀ a ∈ as, a < h.length) →
      (mapAlloc f h as).1 = h ++ as.map (fun a => f (heapGet h a)) := by
  intro as
  induction as with
  | nil => intro h _; simp [mapAlloc]
  | cons a as ih =>
    intro h hbnd
    show (mapAlloc f (h ++ [f (heapGet h a)]) as).1 = _
    rw [ih (h ++ [f (heapGet h a)]) (by
      intro x hx
      have := hbnd x (by simp [hx])
      simp only [List.length_append, List.length_singleton]
      omega)]
    have hmapeq : as.map (fun x => f (heapGet (h ++ [f (heapGet h a)]) x)) =
        as.map (fun x => f (heapGet h x)) :=
      List.map_congr_left (fun x hx => by
        rw [heapGet_append_lt h _ x (hbnd x (by simp [hx]))])
    rw [hmapeq, List.append_assoc, List.singleton_append, List.map_cons]

lemma mapAlloc_snd (f : Prompt → Prompt) :
    ∀ (as : List ℕ) (h : Heap),
      (mapAlloc f h as).2 = List.range' h.length as.length := by
  intro as
  induction as with
  | nil => intro h; rfl
  | cons a as ih =>
    intro h
    show h.length :: (mapAlloc f (h ++ [f (heapGet h a)]) as).2 = _
    rw [ih, List.length_cons, List.range'_succ]
    congr 1
    simp only [List.length_append, List.length_singleton]

lemma mapAlloc_content (f : Prompt → Prompt) (as : List ℕ) (h : Heap)
    (hbnd : ∀ a ∈ as, a < h.length) :
    ∀ b ∈ (mapAlloc f h as).2, h.length ≤ b ∧
      ∃ a ∈ as, heapGet (mapAlloc f h as).1 b = f (heapGet h a) := by
  intro b hbmem
  rw [mapAlloc_snd] at hbmem
  rw [List.mem_range'] at hbmem
  obtain ⟨i, hi, rfl⟩ := hbmem
  refine ⟨by omega, as.get ⟨i, hi⟩, List.get_mem as i hi, ?_⟩
  rw [mapAlloc_fst f as h hbnd]
  unfold heapGet
  rw [List.getD_append_right _ _ _ _ (by omega)]
  have hidx : h.length + 1 * i - h.length = i := by omega
  rw [hidx]
  rw [List.getD_eq_get _ _ (by simp [hi])]
  rw [List.get_map]

lemma applyFiltersA_sublist (dv : JSStr → Option ℤ) (endOfDay : ℤ → ℤ)
    (h : Heap) (addrs : List ℕ) (filters : Filters) :
    (applyFiltersA dv endOfDay h addrs filters).Sublist addrs := by
  rcases hcat : filters.category with _ | c <;>
    rcases htag : filters.tags with _ | ts <;>
    rcases hdr : filters.dateRange with _ | dr <;>
    simp only [applyFiltersA, hcat, htag, hdr] <;>
    (try split_ifs) <;>
    first
      | exact List.Sublist.refl _
      | exact List.filter_sublist _
      | exact (List.filter_sublist _).trans (List.filter_sublist _)
      | exact ((List.filter_sublist _).trans (List.filter_sublist _)).trans
          (List.filter_sublist _)

/-- C10: the result pipeline of search (lines 237-263) never writes an
existing heap object, and every returned address is a freshly allocated
copy of some input document with the _searchScore annotation absent. -/
theorem searchCore_no_mutation (dv : JSStr → Option ℤ) (endOfDay : ℤ → ℤ)
    (h : Heap) (addrs : List ℕ) (filters : Filters) (qts : List JSStr)
    (fuzzy : Bool) (hbnd : ∀ a ∈ addrs, a < h.length) :
    (∀ a : ℕ, a < h.length →
      heapGet (searchCore dv endOfDay h addrs filters qts fuzzy).1 a =
        heapGet h a) ∧
    (∀ b ∈ (searchCore dv endOfDay h addrs filters qts fuzzy).2, h.length ≤ b) ∧
    (∀ b ∈ (searchCore dv endOfDay h addrs filters qts fuzzy).2,
      ∃ a ∈ addrs, heapGet (searchCore dv endOfDay h addrs filters qts fuzzy).1 b =
        { heapGet h a with _searchScore := none }) := by
  have hPsub : ∀ x ∈ (if filtersHasKeys filters then
      applyFiltersA dv endOfDay h addrs filters else addrs), x ∈ addrs := by
    intro x hx
    by_cases hk : filtersHasKeys filters
    · rw [if_pos hk] at hx
      exact (applyFiltersA_sublist dv endOfDay h addrs filters).subset hx
    · rw [if_neg hk] at hx
      exact hx
  set P := (if filtersHasKeys filters then
    applyFiltersA dv endOfDay h addrs filters else addrs) with hPdef
  have hPb : ∀ x ∈ P, x < h.length := fun x hx => hbnd x (hPsub x hx)
  by_cases hqt : qts.isEmpty
  · -- empty-query branch: date sort then strip
    have hcore : searchCore dv endOfDay h addrs filters qts fuzzy =
        stripAnnotate h (P.mergeSort
          (fun a b => dateLe dv (heapGet h a) (heapGet h b))) := by
      simp only [searchCore, hqt, Bool.not_true, Bool.false_eq_true, if_false]
    rw [hcore]
    unfold stripAnnotate
    set sorted := P.mergeSort (fun a b => dateLe dv (heapGet h a) (heapGet h b))
      with hsorted
    have hsortb : ∀ x ∈ sorted, x < h.length := by
      intro x hx
      exact hPb x ((List.mergeSort_perm P _).mem_iff.mp (hsorted ▸ hx))
    refine ⟨?_, ?_, ?_⟩
    · intro a ha
      rw [mapAlloc_fst _ sorted h hsortb]
      exact heapGet_append_lt h _ a ha
    · intro b hb
      exact (mapAlloc_content _ sorted h hsortb b hb).1
    · intro b hb
      obtain ⟨_, x, hxs, hxc⟩ := mapAlloc_content _ sorted h hsortb b hb
      exact ⟨x, hPsub x ((List.mergeSort_perm P _).mem_iff.mp (hsorted ▸ hxs)), hxc⟩
  · -- scoring branch: annotate, filter, sort, strip
    have hqtf : qts.isEmpty = false := by
      cases hq2 : qts.isEmpty
      · rfl
      · exact absurd hq2 hqt
    have hcore : searchCore dv endOfDay h addrs filters qts fuzzy =
        stripAnnotate (scoreAnnotate qts fuzzy h P).1
          (((scoreAnnotate qts fuzzy h P).2.filter
            (fun a => decide (SCORE_THRESHOLD ≤
              (((heapGet (scoreAnnotate qts fuzzy h P).1 a)._searchScore.getD 0 : ℚ))))).mergeSort
            (fun a b => scoreLe (heapGet (scoreAnnotate qts fuzzy h P).1 a)
              (heapGet (scoreAnnotate qts fuzzy h P).1 b))) := by
      simp only [searchCore, hqtf, Bool.not_false, if_true]
    rw [hcore]
    unfold stripAnnotate
    set scored := scoreAnnotate qts fuzzy h P with hscored
    have hs1 : scored.1 = h ++ P.map (fun a =>
        (fun p => { p with
          _searchScore := some (calculateScore p qts fuzzy) }) (heapGet h a)) := by
      rw [hscored]
      exact mapAlloc_fst _ P h hPb
    have hs1len : h.length ≤ scored.1.length := by
      rw [hs1]
      simp only [List.length_append]
      omega
    set kept := scored.2.filter
      (fun a => decide (SCORE_THRESHOLD ≤
        (((heapGet scored.1 a)._searchScore.getD 0 : ℚ)))) with hkept
    set sorted := kept.mergeSort
      (fun a b => scoreLe (heapGet scored.1 a) (heapGet scored.1 b)) with hsorted
    have hmemP : ∀ x ∈ sorted, ∃ a ∈ P, heapGet scored.1 x =
        { heapGet h a with _searchScore := some (calculateScore (heapGet h a) qts fuzzy) } := by
      intro x hx
      have hxk : x ∈ kept := (List.mergeSort_perm kept _).mem_iff.mp (hsorted ▸ hx)
      have hxs : x ∈ scored.2 := List.mem_of_mem_filter (hkept ▸ hxk)
      obtain ⟨_, a, haP, hac⟩ := mapAlloc_content _ P h hPb x (hscored ▸ hxs)
      exact ⟨a, haP, hscored ▸ hac⟩
    have hsortb : ∀ x ∈ sorted, x < scored.1.length := by
      intro x hx
      have hxk : x ∈ kept := (List.mergeSort_perm kept _).mem_iff.mp (hsorted ▸ hx)
      have hxs : x ∈ scored.2 := List.mem_of_mem_filter (hkept ▸ hxk)
      rw [hscored] at hxs
      unfold scoreAnnotate at hxs
      rw [mapAlloc_snd] at hxs
      rw [List.mem_range'] at hxs
      obtain ⟨i, hi, rfl⟩ := hxs
      rw [hs1]
      simp only [List.length_append, List.length_map]
      omega
    refine ⟨?_, ?_, ?_⟩
    · intro a ha
      rw [mapAlloc_fst _ sorted scored.1 hsortb]
      rw [heapGet_append_lt scored.1 _ a (lt_of_lt_of_le ha hs1len), hs1]
      exact heapGet_append_lt h _ a ha
    · intro b hb
      have := (mapAlloc_content _ sorted scored.1 hsortb b hb).1
      omega
    · intro b hb
      obtain ⟨_, x, hxs, hxc⟩ := mapAlloc_content _ sorted scored.1 hsortb b hb
      obtain ⟨a, haP, hac⟩ := hmemP x hxs
      refine ⟨a, hPsub a haP, ?_⟩
      rw [hxc, hac]

/-- Witness for C10: a two-object heap, both addresses searched. -/
theorem searchCore_no_mutation_witness :
    (∀ a ∈ [0, 1], a < ([{ title := "hi".toList }, { title := "yo".toList }] :
        Heap).length) ∧
    ((∀ a : ℕ, a < ([{ title := "hi".toList }, { title := "yo".toList }] :
        Heap).length →
      heapGet (searchCore (fun _ => none) id
          [{ title := "hi".toList }, { title := "yo".toList }] [0, 1] {}
          ["hi".toList] false).1 a =
        heapGet [{ title := "hi".toList }, { title := "yo".toList }] a) ∧
    (∀ b ∈ (searchCore (fun _ => none) id
        [{ title := "hi".toList }, { title := "yo".toList }] [0, 1] {}
        ["hi".toList] false).2,
      ([{ title := "hi".toList }, { title := "yo".toList }] : Heap).length ≤ b) ∧
    (∀ b ∈ (searchCore (fun _ => none) id
        [{ title := "hi".toList }, { title := "yo".toList }] [0, 1] {}
        ["hi".toList] false).2,
      ∃ a ∈ [0, 1], heapGet (searchCore (fun _ => none) id
          [{ title := "hi".toList }, { title := "yo".toList }] [0, 1] {}
          ["hi".toList] false).1 b =
        { heapGet [{ title := "hi".toList }, { title := "yo".toList }] a with
          _searchScore := none })) :=
  ⟨by decide,
    searchCore_no_mutation (fun _ => none) id
      [{ title := "hi".toList }, { title := "yo".toList }] [0, 1] {}
      ["hi".toList] false (by decide)⟩

end HeapModel

end PromptFactory
